import Mathlib

/-!
Verification of the DegreePath API server (src/server/main.py).

The server is a thin HTTP data-access layer over a relational store.  We
shallow-embed the store as lists of rows, each endpoint handler as a pure
function on the store, and the JSON payload serialization (`json.dumps` /
`json.loads` applied to a plan's payload) as an executable encoder and
parser over an inductive document type.  Infrastructure failures (the
database connection or an individual round trip failing) are injected by a
boolean oracle so that the exception paths of each handler are part of the
model.
-/

namespace DegreePath

/-! ## JSON documents

The plan payload is an arbitrary JSON document (`plan_data: dict` is
serialized with `json.dumps` before the INSERT and re-read with
`json.loads` on fetch).  Numbers are modelled as integers and strings as
character lists; the serializer escapes quote and backslash, mirroring
the textual storage form. -/

inductive Json where
  | null : Json
  | bool (b : Bool) : Json
  | num (n : Int) : Json
  | str (s : List Char) : Json
  | arr (elems : List Json) : Json
  | obj (members : List (List Char × Json)) : Json

/-- Decimal digits of a natural number, most significant first. -/
def dumpNat (n : Nat) : List Char :=
  if n < 10 then [Nat.digitChar n]
  else dumpNat (n / 10) ++ [Nat.digitChar (n % 10)]
termination_by n
decreasing_by simp_wf; omega

/-- Textual form of a JSON integer. -/
def dumpInt (n : Int) : List Char :=
  if n < 0 then '-' :: dumpNat n.natAbs else dumpNat n.toNat

/-- Escape quote and backslash inside a serialized string body. -/
def escapeChars : List Char → List Char
  | [] => []
  | c :: cs =>
    if c = '"' ∨ c = '\\' then '\\' :: c :: escapeChars cs
    else c :: escapeChars cs

mutual

/-- `json.dumps` with the default separators: the textual storage form of
a payload. -/
def dumps : Json → List Char
  | .null => "null".toList
  | .bool true => "true".toList
  | .bool false => "false".toList
  | .num n => dumpInt n
  | .str s => '"' :: (escapeChars s ++ ['"'])
  | .arr [] => ['[', ']']
  | .arr (x :: xs) => '[' :: (dumpSeq x xs ++ [']'])
  | .obj [] => ['\x7b', '\x7d']
  | .obj (m :: ms) => '\x7b' :: (dumpPairs m ms ++ ['\x7d'])
termination_by j => sizeOf j
decreasing_by all_goals (simp_wf <;> omega)

/-- Comma-separated serialization of a nonempty sequence of elements. -/
def dumpSeq : Json → List Json → List Char
  | x, [] => dumps x
  | x, y :: ys => dumps x ++ ',' :: ' ' :: dumpSeq y ys
termination_by x xs => 1 + sizeOf x + sizeOf xs
decreasing_by all_goals (simp_wf <;> omega)

/-- Comma-separated serialization of a nonempty sequence of members. -/
def dumpPairs : (List Char × Json) → List (List Char × Json) → List Char
  | (k, v), [] => '"' :: (escapeChars k ++ '"' :: ':' :: ' ' :: dumps v)
  | (k, v), m :: ms =>
    ('"' :: (escapeChars k ++ '"' :: ':' :: ' ' :: dumps v)) ++
      ',' :: ' ' :: dumpPairs m ms
termination_by m ms => 1 + sizeOf m + sizeOf ms
decreasing_by all_goals (simp_wf <;> omega)

end

/-- Storage form of a payload as a database text column. -/
def dumpsStr (j : Json) : String := String.mk (dumps j)

/-- Is this character a decimal digit? -/
def isDigitCh (c : Char) : Bool := 48 ≤ c.toNat && c.toNat ≤ 57

/-- Numeric value of a digit run, most significant first. -/
def digitsToNat (ds : List Char) : Nat :=
  ds.foldl (fun a c => 10 * a + (c.toNat - 48)) 0

/-- Parse a leading digit run; fails when none is present. -/
def parseNat (cs : List Char) : Option (Nat × List Char) :=
  if cs.takeWhile isDigitCh = [] then none
  else some (digitsToNat (cs.takeWhile isDigitCh), cs.dropWhile isDigitCh)

/-- Parse a string body up to its closing quote, undoing escapes. -/
def parseStringBody : List Char → Option (List Char × List Char)
  | [] => none
  | c :: rest =>
    if c = '"' then some ([], rest)
    else if c = '\\' then
      match rest with
      | [] => none
      | c2 :: rest2 =>
        match parseStringBody rest2 with
        | some (s, r) => some (c2 :: s, r)
        | none => none
    else
      match parseStringBody rest with
      | some (s, r) => some (c :: s, r)
      | none => none

mutual

/-- Fuel-indexed parser for one JSON value; returns the value and the
unconsumed suffix. -/
def parseVal : Nat → List Char → Option (Json × List Char)
  | 0, _ => none
  | _ + 1, [] => none
  | fuel + 1, c :: cs =>
    if c = 'n' then
      match cs with
      | 'u' :: 'l' :: 'l' :: rest => some (.null, rest)
      | _ => none
    else if c = 't' then
      match cs with
      | 'r' :: 'u' :: 'e' :: rest => some (.bool true, rest)
      | _ => none
    else if c = 'f' then
      match cs with
      | 'a' :: 'l' :: 's' :: 'e' :: rest => some (.bool false, rest)
      | _ => none
    else if c = '"' then
      match parseStringBody cs with
      | some (s, r) => some (.str s, r)
      | none => none
    else if c = '[' then
      match cs with
      | [] => none
      | c1 :: cs1 =>
        if c1 = ']' then some (.arr [], cs1)
        else
          match parseItems fuel (c1 :: cs1) with
          | some (xs, r) => some (.arr xs, r)
          | none => none
    else if c = '\x7b' then
      match cs with
      | [] => none
      | c1 :: cs1 =>
        if c1 = '\x7d' then some (.obj [], cs1)
        else
          match parseMembers fuel (c1 :: cs1) with
          | some (ms, r) => some (.obj ms, r)
          | none => none
    else if c = '-' then
      match parseNat cs with
      | some (n, r) => some (.num (-(n : Int)), r)
      | none => none
    else if isDigitCh c then
      match parseNat (c :: cs) with
      | some (n, r) => some (.num (n : Int), r)
      | none => none
    else none

/-- Parse one or more comma-separated values followed by a closing
bracket. -/
def parseItems : Nat → List Char → Option (List Json × List Char)
  | 0, _ => none
  | fuel + 1, cs =>
    match parseVal fuel cs with
    | none => none
    | some (j, rest) =>
      match rest with
      | ']' :: r => some ([j], r)
      | ',' :: ' ' :: r =>
        match parseItems fuel r with
        | none => none
        | some (js, r2) => some (j :: js, r2)
      | _ => none

/-- Parse one or more comma-separated key/value members followed by a
closing brace. -/
def parseMembers : Nat → List Char → Option (List (List Char × Json) × List Char)
  | 0, _ => none
  | fuel + 1, cs =>
    match cs with
    | '"' :: cs1 =>
      match parseStringBody cs1 with
      | none => none
      | some (k, r1) =>
        match r1 with
        | ':' :: ' ' :: r2 =>
          match parseVal fuel r2 with
          | none => none
          | some (v, r3) =>
            match r3 with
            | '\x7d' :: r4 => some ([(k, v)], r4)
            | ',' :: ' ' :: r4 =>
              match parseMembers fuel r4 with
              | none => none
              | some (ms, r5) => some ((k, v) :: ms, r5)
            | _ => none
        | _ => none
    | _ => none

end

/-- `json.loads` on the textual storage form: parse a complete document. -/
def loads (cs : List Char) : Option Json :=
  match parseVal (cs.length + 1) cs with
  | some (j, []) => some j
  | _ => none

/-- `json.loads` on a text column. -/
def loadsStr (s : String) : Option Json := loads s.data

/-- Does the suffix avoid starting with a digit?  Digit runs are maximal,
so the parser of a number only stops where this holds. -/
def nonDigitStart : List Char → Bool
  | [] => true
  | c :: _ => !(isDigitCh c)

mutual

/-- Parser fuel sufficient for one value. -/
def fuelJ : Json → Nat
  | .arr [] => 1
  | .arr (x :: xs) => 1 + fuelSeq x xs
  | .obj [] => 1
  | .obj (m :: ms) => 1 + fuelPairs m ms
  | _ => 1
termination_by j => sizeOf j
decreasing_by all_goals (simp_wf <;> omega)

/-- Parser fuel sufficient for a nonempty element sequence. -/
def fuelSeq : Json → List Json → Nat
  | x, [] => 1 + fuelJ x
  | x, y :: ys => 1 + fuelJ x + fuelSeq y ys
termination_by x xs => 1 + sizeOf x + sizeOf xs
decreasing_by all_goals (simp_wf <;> omega)

/-- Parser fuel sufficient for a nonempty member sequence. -/
def fuelPairs : (List Char × Json) → List (List Char × Json) → Nat
  | (_, v), [] => 1 + fuelJ v
  | (_, v), m :: ms => 1 + fuelJ v + fuelPairs m ms
termination_by m ms => 1 + sizeOf m + sizeOf ms
decreasing_by all_goals (simp_wf <;> omega)

end

/-! ### Unfolding equations for the serializer and the fuel measures

`dumps` and its companions are compiled by well-founded recursion, so we
expose their defining equations as rewrite rules. -/

@[simp] theorem dumps_null : dumps Json.null = ['n', 'u', 'l', 'l'] := by
  rw [dumps.eq_def]
  decide

@[simp] theorem dumps_true : dumps (Json.bool true) = ['t', 'r', 'u', 'e'] := by
  rw [dumps.eq_def]
  decide

@[simp] theorem dumps_false : dumps (Json.bool false) = ['f', 'a', 'l', 's', 'e'] := by
  rw [dumps.eq_def]
  decide

@[simp] theorem dumps_num (n : Int) : dumps (Json.num n) = dumpInt n := by
  rw [dumps.eq_def]

@[simp] theorem dumps_str (s : List Char) :
    dumps (Json.str s) = '"' :: (escapeChars s ++ ['"']) := by
  rw [dumps.eq_def]

@[simp] theorem dumps_arr_nil : dumps (Json.arr []) = ['[', ']'] := by
  rw [dumps.eq_def]

@[simp] theorem dumps_arr_cons (x : Json) (xs : List Json) :
    dumps (Json.arr (x :: xs)) = '[' :: (dumpSeq x xs ++ [']']) := by
  rw [dumps.eq_def]

@[simp] theorem dumps_obj_nil : dumps (Json.obj []) = ['\x7b', '\x7d'] := by
  rw [dumps.eq_def]

@[simp] theorem dumps_obj_cons (m : List Char × Json) (ms : List (List Char × Json)) :
    dumps (Json.obj (m :: ms)) = '\x7b' :: (dumpPairs m ms ++ ['\x7d']) := by
  rw [dumps.eq_def]

@[simp] theorem dumpSeq_nil (x : Json) : dumpSeq x [] = dumps x := by
  rw [dumpSeq.eq_def]

@[simp] theorem dumpSeq_cons (x y : Json) (ys : List Json) :
    dumpSeq x (y :: ys) = dumps x ++ ',' :: ' ' :: dumpSeq y ys := by
  rw [dumpSeq.eq_def]

@[simp] theorem dumpPairs_nil (k : List Char) (v : Json) :
    dumpPairs (k, v) [] = '"' :: (escapeChars k ++ '"' :: ':' :: ' ' :: dumps v) := by
  rw [dumpPairs.eq_def]

@[simp] theorem dumpPairs_cons (k : List Char) (v : Json) (m : List Char × Json)
    (ms : List (List Char × Json)) :
    dumpPairs (k, v) (m :: ms) =
      ('"' :: (escapeChars k ++ '"' :: ':' :: ' ' :: dumps v)) ++
        ',' :: ' ' :: dumpPairs m ms := by
  rw [dumpPairs.eq_def]

@[simp] theorem fuelJ_null : fuelJ Json.null = 1 := by rw [fuelJ.eq_def]

@[simp] theorem fuelJ_bool (b : Bool) : fuelJ (Json.bool b) = 1 := by rw [fuelJ.eq_def]

@[simp] theorem fuelJ_num (n : Int) : fuelJ (Json.num n) = 1 := by rw [fuelJ.eq_def]

@[simp] theorem fuelJ_str (s : List Char) : fuelJ (Json.str s) = 1 := by rw [fuelJ.eq_def]

@[simp] theorem fuelJ_arr_nil : fuelJ (Json.arr []) = 1 := by rw [fuelJ.eq_def]

@[simp] theorem fuelJ_arr_cons (x : Json) (xs : List Json) :
    fuelJ (Json.arr (x :: xs)) = 1 + fuelSeq x xs := by rw [fuelJ.eq_def]

@[simp] theorem fuelJ_obj_nil : fuelJ (Json.obj []) = 1 := by rw [fuelJ.eq_def]

@[simp] theorem fuelJ_obj_cons (m : List Char × Json) (ms : List (List Char × Json)) :
    fuelJ (Json.obj (m :: ms)) = 1 + fuelPairs m ms := by rw [fuelJ.eq_def]

@[simp] theorem fuelSeq_nil (x : Json) : fuelSeq x [] = 1 + fuelJ x := by
  rw [fuelSeq.eq_def]

@[simp] theorem fuelSeq_cons (x y : Json) (ys : List Json) :
    fuelSeq x (y :: ys) = 1 + fuelJ x + fuelSeq y ys := by rw [fuelSeq.eq_def]

@[simp] theorem fuelPairs_nil (k : List Char) (v : Json) :
    fuelPairs (k, v) [] = 1 + fuelJ v := by rw [fuelPairs.eq_def]

@[simp] theorem fuelPairs_cons (k : List Char) (v : Json) (m : List Char × Json)
    (ms : List (List Char × Json)) :
    fuelPairs (k, v) (m :: ms) = 1 + fuelJ v + fuelPairs m ms := by
  rw [fuelPairs.eq_def]

theorem fuelJ_pos (j : Json) : 1 ≤ fuelJ j := by
  rw [fuelJ.eq_def]; split <;> omega

theorem fuelSeq_pos (x : Json) (xs : List Json) : 1 ≤ fuelSeq x xs := by
  rw [fuelSeq.eq_def]; split <;> omega

theorem fuelPairs_pos (m : List Char × Json) (ms : List (List Char × Json)) :
    1 ≤ fuelPairs m ms := by
  rw [fuelPairs.eq_def]; split <;> omega

theorem nonDigit_cons {c : Char} (h : isDigitCh c = false) (rest : List Char) :
    nonDigitStart (c :: rest) = true := by
  simp [nonDigitStart, h]

/-! ### Digits and numbers -/

theorem isDigitCh_digitChar {d : Nat} (hd : d < 10) :
    isDigitCh (Nat.digitChar d) = true := by
  interval_cases d <;> decide

theorem toNat_digitChar {d : Nat} (hd : d < 10) :
    (Nat.digitChar d).toNat = 48 + d := by
  interval_cases d <;> decide

theorem dumpNat_ne_nil (n : Nat) : dumpNat n ≠ [] := by
  rw [dumpNat]
  split <;> simp

theorem dumpNat_digits (n : Nat) : ∀ c ∈ dumpNat n, isDigitCh c = true := by
  induction n using Nat.strong_induction_on with
  | _ n ih =>
    rw [dumpNat]
    split
    · intro c hc
      simp only [List.mem_singleton] at hc
      subst hc
      exact isDigitCh_digitChar (by omega)
    · intro c hc
      rw [List.mem_append, List.mem_singleton] at hc
      rcases hc with hc | hc
      · exact ih (n / 10) (Nat.div_lt_self (by omega) (by omega)) c hc
      · subst hc
        exact isDigitCh_digitChar (Nat.mod_lt _ (by omega))

theorem dumpNat_foldl (n : Nat) : ∀ a : Nat,
    (dumpNat n).foldl (fun a c => 10 * a + (c.toNat - 48)) a =
      a * 10 ^ (dumpNat n).length + n := by
  induction n using Nat.strong_induction_on with
  | _ n ih =>
    intro a
    rw [dumpNat]
    split
    · rw [List.foldl_cons, List.foldl_nil, toNat_digitChar (by omega)]
      simp only [List.length_singleton, pow_one]
      omega
    · rw [List.foldl_append, List.foldl_cons, List.foldl_nil,
        ih (n / 10) (Nat.div_lt_self (by omega) (by omega)),
        toNat_digitChar (Nat.mod_lt _ (by omega)),
        List.length_append, List.length_singleton, pow_succ]
      have hdm := Nat.div_add_mod n 10
      set L := (dumpNat (n / 10)).length
      have : a * (10 ^ L * 10) = 10 * (a * 10 ^ L) := by ring
      omega

theorem digitsToNat_dumpNat (n : Nat) : digitsToNat (dumpNat n) = n := by
  have := dumpNat_foldl n 0
  simpa [digitsToNat] using this

theorem takeWhile_digits (ds rest : List Char) (hds : ∀ c ∈ ds, isDigitCh c = true)
    (hrest : nonDigitStart rest = true) :
    (ds ++ rest).takeWhile isDigitCh = ds ∧ (ds ++ rest).dropWhile isDigitCh = rest := by
  induction ds with
  | nil =>
    cases rest with
    | nil => simp
    | cons c r =>
      simp only [nonDigitStart, Bool.not_eq_true'] at hrest
      simp [hrest]
  | cons c cs ih =>
    have hc : isDigitCh c = true := hds c (by simp)
    have hcs : ∀ c ∈ cs, isDigitCh c = true := fun c h => hds c (by simp [h])
    obtain ⟨h1, h2⟩ := ih hcs
    simp [List.takeWhile_cons, List.dropWhile_cons, hc, h1, h2]

theorem parseNat_dumpNat (n : Nat) (rest : List Char)
    (hrest : nonDigitStart rest = true) :
    parseNat (dumpNat n ++ rest) = some (n, rest) := by
  obtain ⟨h1, h2⟩ := takeWhile_digits (dumpNat n) rest (dumpNat_digits n) hrest
  rw [parseNat, h1, h2, if_neg (dumpNat_ne_nil n), digitsToNat_dumpNat]

/-- The head of a digit run dispatches the value parser to its number
branch. -/
theorem digit_head_branches {c : Char} (h : isDigitCh c = true) :
    c ≠ 'n' ∧ c ≠ 't' ∧ c ≠ 'f' ∧ c ≠ '"' ∧ c ≠ '[' ∧ c ≠ '\x7b' ∧ c ≠ '-' := by
  refine ⟨?_, ?_, ?_, ?_, ?_, ?_, ?_⟩ <;> (rintro rfl; exact absurd h (by decide))

theorem dumpNat_cons (n : Nat) :
    ∃ d ds, dumpNat n = d :: ds ∧ isDigitCh d = true := by
  cases h : dumpNat n with
  | nil => exact absurd h (dumpNat_ne_nil n)
  | cons d ds =>
    exact ⟨d, ds, rfl, dumpNat_digits n d (by rw [h]; simp)⟩

/-! ### String bodies -/

theorem parseStringBody_escape (s : List Char) : ∀ rest : List Char,
    parseStringBody (escapeChars s ++ '"' :: rest) = some (s, rest) := by
  induction s with
  | nil =>
    intro rest
    rw [escapeChars, List.nil_append, parseStringBody.eq_def]
    simp
  | cons c cs ih =>
    intro rest
    rw [escapeChars]
    by_cases hc : c = '"' ∨ c = '\\'
    · rw [if_pos hc, List.cons_append, List.cons_append, parseStringBody.eq_def]
      simp [ih]
    · rw [if_neg hc]
      push_neg at hc
      rw [List.cons_append, parseStringBody.eq_def]
      simp [hc.1, hc.2, ih]

/-- Serialized values never begin with a closing bracket, so a nonempty
array's first element is parsed as an element. -/
theorem dumps_cons_head (j : Json) :
    ∃ c t, dumps j = c :: t ∧ c ≠ ']' := by
  cases j with
  | null => exact ⟨'n', _, by rw [dumps_null], by decide⟩
  | bool b => cases b with
    | true => exact ⟨'t', _, by rw [dumps_true], by decide⟩
    | false => exact ⟨'f', _, by rw [dumps_false], by decide⟩
  | num n =>
    rw [dumps_num, dumpInt]
    split
    · exact ⟨'-', _, rfl, by decide⟩
    · obtain ⟨d, ds, hds, hd⟩ := dumpNat_cons n.toNat
      refine ⟨d, ds, hds, ?_⟩
      rintro rfl
      exact absurd hd (by decide)
  | str s => exact ⟨'"', _, by rw [dumps_str], by decide⟩
  | arr xs => cases xs with
    | nil => exact ⟨'[', _, by rw [dumps_arr_nil], by decide⟩
    | cons x xs => exact ⟨'[', _, by rw [dumps_arr_cons], by decide⟩
  | obj ms => cases ms with
    | nil => exact ⟨'\x7b', _, by rw [dumps_obj_nil], by decide⟩
    | cons m ms => exact ⟨'\x7b', _, by rw [dumps_obj_cons], by decide⟩

/-- The value parser on an opening bracket whose next character is not a
closing bracket parses a nonempty element sequence. -/
theorem parseVal_lbracket (fuel : Nat) (c₁ : Char) (cs₁ : List Char) (h : c₁ ≠ ']') :
    parseVal (fuel + 1) ('[' :: c₁ :: cs₁) =
      match parseItems fuel (c₁ :: cs₁) with
      | some (xs, r) => some (Json.arr xs, r)
      | none => none := by
  simp [parseVal, h]

/-- The value parser on an opening brace whose next character is not a
closing brace parses a nonempty member sequence. -/
theorem parseVal_lbrace (fuel : Nat) (c₁ : Char) (cs₁ : List Char) (h : c₁ ≠ '\x7d') :
    parseVal (fuel + 1) ('\x7b' :: c₁ :: cs₁) =
      match parseMembers fuel (c₁ :: cs₁) with
      | some (ms, r) => some (Json.obj ms, r)
      | none => none := by
  simp [parseVal, h]

/-- Joint round trip: the parser consumes exactly one serialized value,
element sequence, or member sequence and returns it unchanged, for any
sufficient fuel. -/
theorem parse_dumps_round : ∀ fuel : Nat,
    (∀ j rest, fuelJ j ≤ fuel → nonDigitStart rest = true →
      parseVal fuel (dumps j ++ rest) = some (j, rest)) ∧
    (∀ x xs rest, fuelSeq x xs ≤ fuel →
      parseItems fuel (dumpSeq x xs ++ ']' :: rest) = some (x :: xs, rest)) ∧
    (∀ k v ms rest, fuelPairs (k, v) ms ≤ fuel →
      parseMembers fuel (dumpPairs (k, v) ms ++ '\x7d' :: rest) = some ((k, v) :: ms, rest)) := by
  intro fuel
  induction fuel with
  | zero =>
    refine ⟨fun j rest hf _ => absurd hf (by have := fuelJ_pos j; omega),
            fun x xs rest hf => absurd hf (by have := fuelSeq_pos x xs; omega),
            fun k v ms rest hf => absurd hf (by have := fuelPairs_pos (k, v) ms; omega)⟩
  | succ fuel ih =>
    obtain ⟨ihV, ihI, ihM⟩ := ih
    refine ⟨?_, ?_, ?_⟩
    · intro j rest hf hrest
      cases j with
      | null => simp [parseVal]
      | bool b => cases b with
        | true => simp [parseVal]
        | false => simp [parseVal]
      | num n =>
        rcases lt_or_le n 0 with hn | hn
        · have hd : dumpInt n = '-' :: dumpNat n.natAbs := by rw [dumpInt, if_pos hn]
          simp only [dumps_num, hd, List.cons_append]
          simp [parseVal, parseNat_dumpNat _ _ hrest]
          simp [abs_of_neg hn]
        · have hd : dumpInt n = dumpNat n.toNat := by rw [dumpInt, if_neg (by omega)]
          obtain ⟨d, ds, hds, hdig⟩ := dumpNat_cons n.toNat
          obtain ⟨h1, h2, h3, h4, h5, h6, h7⟩ := digit_head_branches hdig
          have harg : d :: (ds ++ rest) = dumpNat n.toNat ++ rest := by
            rw [hds, List.cons_append]
          rw [dumps_num, hd, hds, List.cons_append]
          simp only [parseVal, h1, h2, h3, h4, h5, h6, h7, hdig, if_false, if_true,
            ite_false, ite_true]
          rw [harg, parseNat_dumpNat _ _ hrest]
          simp [Int.toNat_of_nonneg hn]
      | str s =>
        rw [dumps_str]
        have hl : ('"' :: (escapeChars s ++ ['"'])) ++ rest =
            '"' :: (escapeChars s ++ '"' :: rest) := by simp
        rw [hl]
        simp [parseVal, parseStringBody_escape]
      | arr xs =>
        cases xs with
        | nil => simp [parseVal]
        | cons x xs =>
          have hf' : fuelSeq x xs ≤ fuel := by rw [fuelJ_arr_cons] at hf; omega
          obtain ⟨c₀, t₀, h₀, hc₀⟩ := dumps_cons_head x
          have hseq : ∃ t, dumpSeq x xs = c₀ :: t := by
            cases xs with
            | nil => exact ⟨t₀, by rw [dumpSeq_nil, h₀]⟩
            | cons y ys =>
              exact ⟨t₀ ++ ',' :: ' ' :: dumpSeq y ys, by
                rw [dumpSeq_cons, h₀, List.cons_append]⟩
          obtain ⟨t, ht⟩ := hseq
          have key := ihI x xs rest hf'
          rw [dumps_arr_cons]
          have hl : ('[' :: (dumpSeq x xs ++ [']'])) ++ rest =
              '[' :: (dumpSeq x xs ++ ']' :: rest) := by simp
          have hform : dumpSeq x xs ++ ']' :: rest = c₀ :: (t ++ ']' :: rest) := by
            rw [ht, List.cons_append]
          rw [hl, hform, parseVal_lbracket fuel _ _ hc₀, ← hform, key]
      | obj ms =>
        cases ms with
        | nil => simp [parseVal]
        | cons m ms =>
          obtain ⟨k, v⟩ := m
          have hf' : fuelPairs (k, v) ms ≤ fuel := by rw [fuelJ_obj_cons] at hf; omega
          have hp : ∃ t, dumpPairs (k, v) ms = '"' :: t := by
            cases ms with
            | nil => exact ⟨_, by rw [dumpPairs_nil]⟩
            | cons m' ms' => exact ⟨_, by rw [dumpPairs_cons, List.cons_append]⟩
          obtain ⟨t, ht⟩ := hp
          have key := ihM k v ms rest hf'
          rw [dumps_obj_cons]
          have hl : ('\x7b' :: (dumpPairs (k, v) ms ++ ['\x7d'])) ++ rest =
              '\x7b' :: (dumpPairs (k, v) ms ++ '\x7d' :: rest) := by simp
          have hform : dumpPairs (k, v) ms ++ '\x7d' :: rest = '"' :: (t ++ '\x7d' :: rest) := by
            rw [ht, List.cons_append]
          rw [hl, hform, parseVal_lbrace fuel _ _ (by decide), ← hform, key]
    · intro x xs rest hf
      cases xs with
      | nil =>
        have hfx : fuelJ x ≤ fuel := by rw [fuelSeq_nil] at hf; omega
        have hx := ihV x (']' :: rest) hfx (nonDigit_cons (by decide) rest)
        rw [dumpSeq_nil]
        simp [parseItems, hx]
      | cons y ys =>
        have hfx : fuelJ x ≤ fuel := by rw [fuelSeq_cons] at hf; omega
        have hfy : fuelSeq y ys ≤ fuel := by rw [fuelSeq_cons] at hf; omega
        have hx := ihV x (',' :: ' ' :: (dumpSeq y ys ++ ']' :: rest)) hfx
          (nonDigit_cons (by decide) _)
        have hy := ihI y ys rest hfy
        rw [dumpSeq_cons]
        have hl : (dumps x ++ ',' :: ' ' :: dumpSeq y ys) ++ ']' :: rest =
            dumps x ++ ',' :: ' ' :: (dumpSeq y ys ++ ']' :: rest) := by simp
        rw [hl]
        simp [parseItems, hx, hy]
    · intro k v ms rest hf
      cases ms with
      | nil =>
        have hfv : fuelJ v ≤ fuel := by rw [fuelPairs_nil] at hf; omega
        have hv := ihV v ('\x7d' :: rest) hfv (nonDigit_cons (by decide) rest)
        rw [dumpPairs_nil]
        have hl : ('"' :: (escapeChars k ++ '"' :: ':' :: ' ' :: dumps v)) ++ '\x7d' :: rest =
            '"' :: (escapeChars k ++ '"' :: (':' :: ' ' :: (dumps v ++ '\x7d' :: rest))) := by
          simp
        rw [hl]
        simp [parseMembers, parseStringBody_escape, hv]
      | cons m' ms' =>
        obtain ⟨k2, v2⟩ := m'
        have hfv : fuelJ v ≤ fuel := by rw [fuelPairs_cons] at hf; omega
        have hfm : fuelPairs (k2, v2) ms' ≤ fuel := by rw [fuelPairs_cons] at hf; omega
        have hv := ihV v (',' :: ' ' :: (dumpPairs (k2, v2) ms' ++ '\x7d' :: rest)) hfv
          (nonDigit_cons (by decide) _)
        have hm := ihM k2 v2 ms' rest hfm
        rw [dumpPairs_cons]
        have hl : (('"' :: (escapeChars k ++ '"' :: ':' :: ' ' :: dumps v)) ++
              ',' :: ' ' :: dumpPairs (k2, v2) ms') ++ '\x7d' :: rest =
            '"' :: (escapeChars k ++ '"' :: (':' :: ' ' ::
              (dumps v ++ ',' :: ' ' :: (dumpPairs (k2, v2) ms' ++ '\x7d' :: rest)))) := by
          simp
        rw [hl]
        simp [parseMembers, parseStringBody_escape, hv, hm]

theorem json_sizeOf_pos (j : Json) : 1 ≤ sizeOf j := by
  cases j <;> simp <;> omega

theorem dumpInt_ne_nil (n : Int) : dumpInt n ≠ [] := by
  rw [dumpInt]
  split
  · simp
  · exact dumpNat_ne_nil _

/-- The length of a serialized value dominates the fuel it needs. -/
theorem fuel_le_len : ∀ N : Nat,
    (∀ j : Json, sizeOf j ≤ N → fuelJ j ≤ (dumps j).length) ∧
    (∀ (x : Json) (xs : List Json), sizeOf x + sizeOf xs ≤ N →
      fuelSeq x xs ≤ 1 + (dumpSeq x xs).length) ∧
    (∀ (m : List Char × Json) (ms : List (List Char × Json)), sizeOf m + sizeOf ms ≤ N →
      fuelPairs m ms ≤ 1 + (dumpPairs m ms).length) := by
  intro N
  induction N with
  | zero =>
    refine ⟨fun j hj => absurd hj (by have := json_sizeOf_pos j; omega),
            fun x xs h => absurd h (by have := json_sizeOf_pos x; omega),
            fun m ms h => absurd h (by obtain ⟨k, v⟩ := m; simp)⟩
  | succ N ih =>
    obtain ⟨ihJ, ihS, ihP⟩ := ih
    refine ⟨?_, ?_, ?_⟩
    · intro j hj
      cases j with
      | null => simp
      | bool b => cases b <;> simp
      | num n =>
        have := List.length_pos.mpr (dumpInt_ne_nil n)
        simp only [fuelJ_num, dumps_num]
        omega
      | str s => simp
      | arr xs =>
        cases xs with
        | nil => simp
        | cons x xs =>
          have hx : sizeOf x + sizeOf xs ≤ N := by
            simp at hj
            omega
          have := ihS x xs hx
          simp only [fuelJ_arr_cons, dumps_arr_cons, List.length_cons, List.length_append]
          simp
          omega
      | obj ms =>
        cases ms with
        | nil => simp
        | cons m ms =>
          have hm : sizeOf m + sizeOf ms ≤ N := by
            simp at hj
            omega
          have := ihP m ms hm
          simp only [fuelJ_obj_cons, dumps_obj_cons, List.length_cons, List.length_append]
          simp
          omega
    · intro x xs hx
      cases xs with
      | nil =>
        have hj : sizeOf x ≤ N := by simp at hx; omega
        have := ihJ x hj
        simp only [fuelSeq_nil, dumpSeq_nil]
        omega
      | cons y ys =>
        have h1 : sizeOf x ≤ N := by
          have := json_sizeOf_pos y
          simp at hx
          omega
        have h2 : sizeOf y + sizeOf ys ≤ N := by
          have := json_sizeOf_pos x
          simp at hx
          omega
        have := ihJ x h1
        have := ihS y ys h2
        simp only [fuelSeq_cons, dumpSeq_cons, List.length_append, List.length_cons]
        omega
    · intro m ms hm
      obtain ⟨k, v⟩ := m
      cases ms with
      | nil =>
        have hj : sizeOf v ≤ N := by simp at hm; omega
        have := ihJ v hj
        simp only [fuelPairs_nil, dumpPairs_nil, List.length_cons, List.length_append]
        omega
      | cons m' ms' =>
        have h1 : sizeOf v ≤ N := by
          have : 1 ≤ sizeOf m' := by cases m'; simp; omega
          simp at hm
          omega
        have h2 : sizeOf m' + sizeOf ms' ≤ N := by
          simp at hm
          omega
        have := ihJ v h1
        have := ihP m' ms' h2
        simp only [fuelPairs_cons, dumpPairs_cons, List.length_append, List.length_cons]
        omega

/-- Deserializing the stored textual form undoes the serialization
performed at save time: `loads` after `dumps` is the identity. -/
theorem loads_dumps (j : Json) : loads (dumps j) = some j := by
  have hfuel : fuelJ j ≤ (dumps j).length + 1 := by
    have := (fuel_le_len (sizeOf j)).1 j le_rfl
    omega
  have hp := (parse_dumps_round ((dumps j).length + 1)).1 j [] hfuel rfl
  rw [List.append_nil] at hp
  simp [loads, hp]

/-- The round trip on text columns. -/
theorem loadsStr_dumpsStr (j : Json) : loadsStr (dumpsStr j) = some j := by
  simp [loadsStr, dumpsStr, loads_dumps]

/-! ## The relational store

Rows of the four tables of the persisted schema
(`users`, `programs`, `courses`, `plans`). -/

structure UserRow where
  id : Int
  email : String
  name : String
deriving DecidableEq

structure ProgramRow where
  id : Int
  school_name : String
  program_name : String
  degree_type : String
deriving DecidableEq

structure CourseRow where
  id : Int
  program_id : Int
  code : String
  title : String
  credits : Int
  offered_terms : List String
  prerequisites : List String
deriving DecidableEq

structure PlanRow where
  id : Int
  user_id : Int
  program_id : Int
  plan_data : String
  created_at : Nat
deriving DecidableEq

/-- The visible state of the relational store.  `next_user_id` and
`next_plan_id` model the serial id sequences, `now` the insertion clock
that stamps `created_at`, and `tables` the table names visible through
`information_schema`. -/
structure DB where
  users : List UserRow
  programs : List ProgramRow
  courses : List CourseRow
  plans : List PlanRow
  next_user_id : Int
  next_plan_id : Int
  now : Nat
  tables : List String

/-- A raised `HTTPException(status_code, detail)`. -/
structure HTTPException where
  status_code : Nat
  detail : String
deriving DecidableEq

/-- Lifetime of the per-request database connection. -/
inductive ConnState where
  | notAcquired : ConnState
  | acquired : ConnState
  | released : ConnState
deriving DecidableEq

/-- Infrastructure-failure oracle: `fail n = some msg` means the n-th
database round trip of the handler (0 = the connection attempt itself)
raises an exception whose textual form is `msg`. -/
def noFail : Nat → Option String := fun _ => none

/-- Detail of the `HTTPException` raised when the connection attempt
fails (the source maps distinct `asyncpg` errors to distinct details, all
with status 500; we use the generic branch's detail). -/
def connectionError : HTTPException := ⟨500, "Database connection failed"⟩

/-- The endpoint-boundary translation of an uncategorized exception. -/
def databaseError (msg : String) : HTTPException := ⟨500, "Database error: " ++ msg⟩

/-- `fetchval "SELECT id FROM users WHERE id = $1"`. -/
def fetchUserId (db : DB) (uid : Int) : Option Int :=
  (db.users.find? (fun u => u.id == uid)).map (fun u => u.id)

/-- `fetchval "SELECT id FROM programs WHERE id = $1"`. -/
def fetchProgramId (db : DB) (pid : Int) : Option Int :=
  (db.programs.find? (fun p => p.id == pid)).map (fun p => p.id)

/-- Python truthiness of a fetched optional integer: `None` and `0` are
falsy, so `if not value:` treats both as absent. -/
def pyTruthy : Option Int → Bool
  | none => false
  | some n => n != 0

/-- Insert into a list sorted by `le` (used to model `ORDER BY`). -/
def insertBy {α : Type} (le : α → α → Bool) (x : α) : List α → List α
  | [] => [x]
  | y :: ys => if le x y then x :: y :: ys else y :: insertBy le x ys

/-- Insertion sort by a boolean relation (the model of `ORDER BY`). -/
def sortBy {α : Type} (le : α → α → Bool) (l : List α) : List α :=
  l.foldr (insertBy le) []

/-- Insert into an ascending duplicate-free list, keeping it so (used to
model `SELECT DISTINCT ... ORDER BY`). -/
def sortedInsertD (x : String) : List String → List String
  | [] => [x]
  | y :: ys =>
    if x < y then x :: y :: ys
    else if x = y then y :: ys
    else y :: sortedInsertD x ys

/-- Distinct values in ascending order: the result set of
`SELECT DISTINCT school_name FROM programs ORDER BY school_name`. -/
def distinctSorted (l : List String) : List String :=
  l.foldr sortedInsertD []

/-! ## Endpoint handlers

Each handler mirrors the corresponding function of `src/server/main.py`:
the connection is acquired first (outside the `try` in every endpoint but
the database probe), the body runs inside a `try` whose `except` arms
translate exceptions, and a `finally` closes the connection — except in
`test_database`, which has no `finally` and closes only on its success
path.  The returned `ConnState` records how the handler left the
connection. -/

structure SchoolsResponse where
  schools : List String
  count : Nat
deriving DecidableEq

/-- GET /schools (main.py 177-198). -/
def get_all_schools (fail : Nat → Option String) (db : DB) :
    Except HTTPException SchoolsResponse × ConnState :=
  match fail 0 with
  | some _ => (.error connectionError, .notAcquired)
  | none =>
    match fail 1 with
    | some e => (.error (databaseError e), .released)
    | none =>
      let schools := distinctSorted (db.programs.map (fun p => p.school_name))
      (.ok ⟨schools, schools.length⟩, .released)

structure ProgramsForSchoolResponse where
  school : String
  programs : List ProgramRow
  count : Nat
deriving DecidableEq

/-- GET /schools/school_name/programs (main.py 201-231). -/
def get_programs_for_school (fail : Nat → Option String) (db : DB) (school_name : String) :
    Except HTTPException ProgramsForSchoolResponse × ConnState :=
  match fail 0 with
  | some _ => (.error connectionError, .notAcquired)
  | none =>
    match fail 1 with
    | some e => (.error (databaseError e), .released)
    | none =>
      let programs := sortBy (fun a b => decide (a.program_name ≤ b.program_name))
        (db.programs.filter (fun p => p.school_name == school_name))
      (.ok ⟨school_name, programs, programs.length⟩, .released)

structure CreateUser where
  email : String
  name : String

structure CreateUserResponse where
  message : String
  user : UserRow
deriving DecidableEq

/-- POST /users (main.py 234-265).  The `UNIQUE` constraint on
`users.email` makes the insert raise `UniqueViolationError` exactly when
the email is already present. -/
def create_new_user (fail : Nat → Option String) (db : DB) (user_data : CreateUser) :
    Except HTTPException CreateUserResponse × DB × ConnState :=
  match fail 0 with
  | some _ => (.error connectionError, db, .notAcquired)
  | none =>
    match fail 1 with
    | some e => (.error (databaseError e), db, .released)
    | none =>
      if db.users.any (fun u => u.email == user_data.email) then
        (.error ⟨400, "Email already exists"⟩, db, .released)
      else
        let row : UserRow := ⟨db.next_user_id, user_data.email, user_data.name⟩
        (.ok ⟨"User created successfully", row⟩,
          { db with users := db.users ++ [row], next_user_id := db.next_user_id + 1 },
          .released)

structure CreatePlan where
  program_id : Int
  plan_data : Json

structure SavePlanResponse where
  message : String
  plan_id : Int
  created_at : Nat

/-- POST /users/user_id/plans (main.py 268-309): two truthiness-based
existence checks, then the insert of the serialized payload. -/
def save_degree_plan (fail : Nat → Option String) (db : DB) (user_id : Int)
    (plan_data : CreatePlan) :
    Except HTTPException SavePlanResponse × DB × ConnState :=
  match fail 0 with
  | some _ => (.error connectionError, db, .notAcquired)
  | none =>
    match fail 1 with
    | some e => (.error (databaseError e), db, .released)
    | none =>
      if !pyTruthy (fetchUserId db user_id) then
        (.error ⟨404, "User not found"⟩, db, .released)
      else
        match fail 2 with
        | some e => (.error (databaseError e), db, .released)
        | none =>
          if !pyTruthy (fetchProgramId db plan_data.program_id) then
            (.error ⟨404, "Program not found"⟩, db, .released)
          else
            match fail 3 with
            | some e => (.error (databaseError e), db, .released)
            | none =>
              let row : PlanRow := ⟨db.next_plan_id, user_id, plan_data.program_id,
                dumpsStr plan_data.plan_data, db.now⟩
              (.ok ⟨"Plan saved successfully", db.next_plan_id, db.now⟩,
                { db with plans := db.plans ++ [row],
                          next_plan_id := db.next_plan_id + 1,
                          now := db.now + 1 },
                .released)

/-- One row of the JOIN in GET /users/user_id/plans, its payload already
deserialized back into a structured document. -/
structure EnrichedPlan where
  id : Int
  user_id : Int
  program_id : Int
  plan_data : Json
  created_at : Nat
  school_name : String
  program_name : String
  degree_type : String

structure UserPlansResponse where
  user_id : Int
  plans : List EnrichedPlan
  count : Nat

/-- The response-shaping loop of GET /users/user_id/plans: each joined
row becomes a record whose `plan_data` is deserialized from its stored
textual form; `json.loads` raising on a malformed payload aborts the
loop. -/
def enrichRows : List (PlanRow × ProgramRow) → Option (List EnrichedPlan)
  | [] => some []
  | r :: rs =>
    match loadsStr r.1.plan_data with
    | none => none
    | some jd =>
      match enrichRows rs with
      | none => none
      | some es =>
        some (EnrichedPlan.mk r.1.id r.1.user_id r.1.program_id jd r.1.created_at
          r.2.school_name r.2.program_name r.2.degree_type :: es)

/-- The result set of the plans query's FROM/JOIN/WHERE clauses: each of
the user's plans paired with every program row matching its program id. -/
def planJoin (db : DB) (user_id : Int) : List (PlanRow × ProgramRow) :=
  (db.plans.filter (fun p => p.user_id == user_id)).flatMap
    (fun p => (db.programs.filter (fun pr => pr.id == p.program_id)).map
      (fun pr => (p, pr)))

/-- The joined rows ordered by `created_at DESC`. -/
def planRows (db : DB) (user_id : Int) : List (PlanRow × ProgramRow) :=
  sortBy (fun a b => decide (b.1.created_at ≤ a.1.created_at)) (planJoin db user_id)

/-- GET /users/user_id/plans (main.py 312-354): join with programs,
newest first, `json.loads` on each stored payload. -/
def get_user_plans (fail : Nat → Option String) (db : DB) (user_id : Int) :
    Except HTTPException UserPlansResponse × ConnState :=
  match fail 0 with
  | some _ => (.error connectionError, .notAcquired)
  | none =>
    match fail 1 with
    | some e => (.error (databaseError e), .released)
    | none =>
      match enrichRows (planRows db user_id) with
      | none => (.error (databaseError "malformed stored plan"), .released)
      | some plans => (.ok ⟨user_id, plans, plans.length⟩, .released)

structure CoursesResponse where
  program_id : Int
  program_name : String
  school_name : String
  courses : List CourseRow
  total_courses : Nat
deriving DecidableEq

/-- GET /programs/program_id/courses (main.py 357-400). -/
def get_courses_for_program (fail : Nat → Option String) (db : DB) (program_id : Int) :
    Except HTTPException CoursesResponse × ConnState :=
  match fail 0 with
  | some _ => (.error connectionError, .notAcquired)
  | none =>
    match fail 1 with
    | some e => (.error (databaseError e), .released)
    | none =>
      match db.programs.find? (fun p => p.id == program_id) with
      | none =>
        (.error ⟨404, "Program with id " ++ toString program_id ++ " not found"⟩, .released)
      | some program =>
        match fail 2 with
        | some e => (.error (databaseError e), .released)
        | none =>
          let courses := sortBy (fun a b => decide (a.code ≤ b.code))
            (db.courses.filter (fun c => c.program_id == program_id))
          (.ok ⟨program_id, program.program_name, program.school_name,
            courses, courses.length⟩, .released)

structure UsersResponse where
  users : List UserRow
  count : Nat
deriving DecidableEq

/-- GET /users (main.py 403-419). -/
def get_all_users (fail : Nat → Option String) (db : DB) :
    Except HTTPException UsersResponse × ConnState :=
  match fail 0 with
  | some _ => (.error connectionError, .notAcquired)
  | none =>
    match fail 1 with
    | some e => (.error (databaseError e), .released)
    | none =>
      let users := sortBy (fun a b => decide (a.name ≤ b.name)) db.users
      (.ok ⟨users, users.length⟩, .released)

/-- GET /users/user_id (main.py 422-441). -/
def get_user (fail : Nat → Option String) (db : DB) (user_id : Int) :
    Except HTTPException UserRow × ConnState :=
  match fail 0 with
  | some _ => (.error connectionError, .notAcquired)
  | none =>
    match fail 1 with
    | some e => (.error (databaseError e), .released)
    | none =>
      match db.users.find? (fun u => u.id == user_id) with
      | none =>
        (.error ⟨404, "User with id " ++ toString user_id ++ " not found"⟩, .released)
      | some row => (.ok row, .released)

/-! ## The database probe -/

/-- Connection parameters resolved from the environment. -/
structure DbConfig where
  host : String
  port : String
  name : String
  user : String
  password : String
deriving DecidableEq

structure TestDbSuccess where
  status : String
  message : String
  database_name : String
  tables_found : List String
  programs_count : Option Nat
deriving DecidableEq

/-- The connection parameters echoed by the probe's failure payload —
there is no password field. -/
structure ConnDetails where
  host : String
  port : String
  database : String
  user : String
deriving DecidableEq

structure TestDbFailure where
  status : String
  message : String
  database_url_format : String
  connection_details : ConnDetails
deriving DecidableEq

/-- The probe's response is always a normal payload, success or
diagnostic. -/
inductive TestDbResponse where
  | ok (payload : TestDbSuccess) : TestDbResponse
  | diag (payload : TestDbFailure) : TestDbResponse
deriving DecidableEq

/-- The connection string echoed on failure, with the password replaced
by the mask. -/
def maskedUrl (cfg : DbConfig) : String :=
  "postgresql://" ++ cfg.user ++ ":***@" ++ cfg.host ++ ":" ++ cfg.port ++ "/" ++ cfg.name

/-- The structured diagnostic payload built by the probe's catch-all. -/
def failurePayload (cfg : DbConfig) (msg : String) : TestDbFailure :=
  ⟨"error", "Database error: " ++ msg, maskedUrl cfg,
    ⟨cfg.host, cfg.port, cfg.name, cfg.user⟩⟩

/-- GET /test-db (main.py 127-174): the whole body, including the
connection attempt, runs inside one `try` whose `except` returns the
diagnostic payload.  There is no `finally`: the connection is closed only
on the success path, before the return. -/
def test_database (fail : Nat → Option String) (cfg : DbConfig) (db : DB) :
    TestDbResponse × ConnState :=
  match fail 0 with
  | some e => (.diag (failurePayload cfg e), .notAcquired)
  | none =>
    match fail 1 with
    | some e => (.diag (failurePayload cfg e), .acquired)
    | none =>
      match fail 2 with
      | some e => (.diag (failurePayload cfg e), .acquired)
      | none =>
        let table_names := sortBy (fun a b => decide (a ≤ b)) db.tables
        if table_names.contains "programs" then
          match fail 3 with
          | some e => (.diag (failurePayload cfg e), .acquired)
          | none =>
            (.ok ⟨"success", "Database connection working!", cfg.name, table_names,
              some db.programs.length⟩, .released)
        else
          (.ok ⟨"success", "Database connection working!", cfg.name, table_names,
            none⟩, .released)

/-! ## Properties of the `ORDER BY` models -/

theorem insertBy_perm {α : Type} (le : α → α → Bool) (x : α) (l : List α) :
    (insertBy le x l).Perm (x :: l) := by
  induction l with
  | nil => simp [insertBy]
  | cons y ys ih =>
    rw [insertBy]
    split
    · exact List.Perm.refl _
    · exact (ih.cons y).trans (List.Perm.swap x y ys)

theorem sortBy_perm {α : Type} (le : α → α → Bool) (l : List α) :
    (sortBy le l).Perm l := by
  induction l with
  | nil => simp [sortBy]
  | cons x xs ih =>
    exact (insertBy_perm le x (sortBy le xs)).trans (ih.cons x)

theorem mem_sortBy {α : Type} {le : α → α → Bool} {x : α} {l : List α} :
    x ∈ sortBy le l ↔ x ∈ l := (sortBy_perm le l).mem_iff

theorem mem_planRows {db : DB} {user_id : Int} {r : PlanRow × ProgramRow} :
    r ∈ planRows db user_id ↔ r ∈ planJoin db user_id := mem_sortBy

theorem insertBy_pairwise {α : Type} {le : α → α → Bool}
    (htot : ∀ a b, le a b = true ∨ le b a = true)
    (htrans : ∀ a b c, le a b = true → le b c = true → le a c = true)
    {l : List α} (hl : l.Pairwise (fun a b => le a b = true)) (x : α) :
    (insertBy le x l).Pairwise (fun a b => le a b = true) := by
  induction l with
  | nil => simp [insertBy]
  | cons y ys ih =>
    rw [List.pairwise_cons] at hl
    obtain ⟨hy, hys⟩ := hl
    by_cases h : le x y = true
    · rw [insertBy, if_pos h, List.pairwise_cons]
      refine ⟨?_, List.pairwise_cons.mpr ⟨hy, hys⟩⟩
      intro z hz
      rcases List.mem_cons.mp hz with rfl | hz
      · exact h
      · exact htrans x y z h (hy z hz)
    · rw [insertBy, if_neg h, List.pairwise_cons]
      refine ⟨?_, ih hys⟩
      intro z hz
      have hz' := (insertBy_perm le x ys).mem_iff.mp hz
      rcases List.mem_cons.mp hz' with rfl | hz'
      · rcases htot z y with h' | h'
        · exact absurd h' h
        · exact h'
      · exact hy z hz'

theorem sortBy_pairwise {α : Type} {le : α → α → Bool}
    (htot : ∀ a b, le a b = true ∨ le b a = true)
    (htrans : ∀ a b c, le a b = true → le b c = true → le a c = true)
    (l : List α) : (sortBy le l).Pairwise (fun a b => le a b = true) := by
  induction l with
  | nil => simp [sortBy]
  | cons x xs ih => exact insertBy_pairwise htot htrans ih x

theorem mem_sortedInsertD {x z : String} {l : List String} :
    z ∈ sortedInsertD x l ↔ z = x ∨ z ∈ l := by
  induction l with
  | nil => simp [sortedInsertD]
  | cons y ys ih =>
    rw [sortedInsertD]
    by_cases h1 : x < y
    · rw [if_pos h1]
      simp [List.mem_cons]
    · rw [if_neg h1]
      by_cases h2 : x = y
      · rw [if_pos h2]
        subst h2
        simp [List.mem_cons]
      · rw [if_neg h2]
        simp [List.mem_cons, ih]
        tauto

theorem sortedInsertD_chain (x : String) {l : List String}
    (hl : l.Pairwise (· < ·)) : (sortedInsertD x l).Pairwise (· < ·) := by
  induction l with
  | nil => simp [sortedInsertD]
  | cons y ys ih =>
    rw [List.pairwise_cons] at hl
    obtain ⟨hy, hys⟩ := hl
    rw [sortedInsertD]
    by_cases h1 : x < y
    · rw [if_pos h1, List.pairwise_cons]
      refine ⟨?_, List.pairwise_cons.mpr ⟨hy, hys⟩⟩
      intro z hz
      rcases List.mem_cons.mp hz with rfl | hz
      · exact h1
      · exact lt_trans h1 (hy z hz)
    · rw [if_neg h1]
      by_cases h2 : x = y
      · rw [if_pos h2, List.pairwise_cons]
        exact ⟨hy, hys⟩
      · rw [if_neg h2, List.pairwise_cons]
        have hyx : y < x := by
          rcases lt_trichotomy x y with h | h | h
          · exact absurd h h1
          · exact absurd h h2
          · exact h
        refine ⟨?_, ih hys⟩
        intro z hz
        rcases mem_sortedInsertD.mp hz with rfl | hz
        · exact hyx
        · exact hy z hz

theorem distinctSorted_chain (l : List String) :
    (distinctSorted l).Pairwise (· < ·) := by
  induction l with
  | nil => simp [distinctSorted]
  | cons x xs ih => exact sortedInsertD_chain x ih

theorem mem_distinctSorted {z : String} {l : List String} :
    z ∈ distinctSorted l ↔ z ∈ l := by
  induction l with
  | nil => simp [distinctSorted]
  | cons x xs ih =>
    show z ∈ sortedInsertD x (distinctSorted xs) ↔ _
    rw [mem_sortedInsertD, ih, List.mem_cons]

theorem distinctSorted_nodup (l : List String) : (distinctSorted l).Nodup :=
  (distinctSorted_chain l).imp ne_of_lt

/-! ## Helpers about fetches, joins and the response-shaping loop -/

theorem fetchUserId_none {db : DB} {uid : Int} (h : ∀ u ∈ db.users, u.id ≠ uid) :
    fetchUserId db uid = none := by
  have hf : db.users.find? (fun u => u.id == uid) = none :=
    List.find?_eq_none.mpr (fun u hu => by simp [h u hu])
  rw [fetchUserId, hf]
  rfl

theorem fetchUserId_truthy {db : DB} {uid : Int} (hpos : ∀ u ∈ db.users, 0 < u.id)
    (h : ∃ u ∈ db.users, u.id = uid) : pyTruthy (fetchUserId db uid) = true := by
  obtain ⟨u, hu, huid⟩ := h
  cases hf : db.users.find? (fun v => v.id == uid) with
  | none =>
    rw [List.find?_eq_none] at hf
    exact absurd (by simp [huid]) (hf u hu)
  | some v =>
    have hvm : v ∈ db.users := List.mem_of_find?_eq_some hf
    rw [fetchUserId, hf]
    have := hpos v hvm
    simp [pyTruthy]
    omega

theorem fetchProgramId_none {db : DB} {pid : Int} (h : ∀ p ∈ db.programs, p.id ≠ pid) :
    fetchProgramId db pid = none := by
  have hf : db.programs.find? (fun p => p.id == pid) = none :=
    List.find?_eq_none.mpr (fun p hp => by simp [h p hp])
  rw [fetchProgramId, hf]
  rfl

theorem fetchProgramId_truthy {db : DB} {pid : Int} (hpos : ∀ p ∈ db.programs, 0 < p.id)
    (h : ∃ p ∈ db.programs, p.id = pid) : pyTruthy (fetchProgramId db pid) = true := by
  obtain ⟨p, hp, hpid⟩ := h
  cases hf : db.programs.find? (fun q => q.id == pid) with
  | none =>
    rw [List.find?_eq_none] at hf
    exact absurd (by simp [hpid]) (hf p hp)
  | some q =>
    have hqm : q ∈ db.programs := List.mem_of_find?_eq_some hf
    rw [fetchProgramId, hf]
    have := hpos q hqm
    simp [pyTruthy]
    omega

/-- Row relation established by the response-shaping loop of the plans
listing. -/
def EnrichedOf (r : PlanRow × ProgramRow) (e : EnrichedPlan) : Prop :=
  e.id = r.1.id ∧ e.user_id = r.1.user_id ∧ e.program_id = r.1.program_id ∧
  some e.plan_data = loadsStr r.1.plan_data ∧ e.created_at = r.1.created_at ∧
  e.school_name = r.2.school_name ∧ e.program_name = r.2.program_name ∧
  e.degree_type = r.2.degree_type

theorem enrichRows_total (rows : List (PlanRow × ProgramRow))
    (h : ∀ r ∈ rows, ∃ j, r.1.plan_data = dumpsStr j) :
    ∃ es, enrichRows rows = some es ∧ List.Forall₂ EnrichedOf rows es := by
  induction rows with
  | nil => exact ⟨[], rfl, List.Forall₂.nil⟩
  | cons r rs ih =>
    obtain ⟨j, hj⟩ := h r (List.mem_cons_self _ _)
    obtain ⟨es, hes, hf⟩ := ih (fun r hr => h r (List.mem_cons_of_mem _ hr))
    have hload : loadsStr r.1.plan_data = some j := by
      rw [hj]
      exact loadsStr_dumpsStr j
    refine ⟨EnrichedPlan.mk r.1.id r.1.user_id r.1.program_id j r.1.created_at
      r.2.school_name r.2.program_name r.2.degree_type :: es, ?_, ?_⟩
    · simp only [enrichRows, hload, hes]
    · exact List.Forall₂.cons ⟨rfl, rfl, rfl, by rw [hload], rfl, rfl, rfl, rfl⟩ hf

theorem forall2_mem_left {α β : Type} {R : α → β → Prop} {l1 : List α} {l2 : List β}
    (h : List.Forall₂ R l1 l2) {a : α} (ha : a ∈ l1) : ∃ b ∈ l2, R a b := by
  induction h with
  | nil => cases ha
  | cons hr htail ih =>
    rcases List.mem_cons.mp ha with rfl | ha
    · exact ⟨_, List.mem_cons_self _ _, hr⟩
    · obtain ⟨b, hb, hrb⟩ := ih ha
      exact ⟨b, List.mem_cons_of_mem _ hb, hrb⟩

theorem forall2_mem_right {α β : Type} {R : α → β → Prop} {l1 : List α} {l2 : List β}
    (h : List.Forall₂ R l1 l2) {b : β} (hb : b ∈ l2) : ∃ a ∈ l1, R a b := by
  induction h with
  | nil => cases hb
  | cons hr htail ih =>
    rcases List.mem_cons.mp hb with rfl | hb
    · exact ⟨_, List.mem_cons_self _ _, hr⟩
    · obtain ⟨a, ha, hra⟩ := ih hb
      exact ⟨a, List.mem_cons_of_mem _ ha, hra⟩

theorem forall2_pairwise {α β : Type} {R : α → β → Prop} {S : α → α → Prop}
    {T : β → β → Prop} (hcomp : ∀ a a' b b', R a b → R a' b' → S a a' → T b b')
    {l1 : List α} {l2 : List β} (hf : List.Forall₂ R l1 l2) (hp : l1.Pairwise S) :
    l2.Pairwise T := by
  induction hf with
  | nil => exact List.Pairwise.nil
  | cons hr htail ih =>
    obtain ⟨ha, hp'⟩ := List.pairwise_cons.mp hp
    refine List.pairwise_cons.mpr ⟨?_, ih hp'⟩
    intro b' hb'
    obtain ⟨a', ha', hra'⟩ := forall2_mem_right htail hb'
    exact hcomp _ _ _ _ hr hra' (ha a' ha')

theorem pairwise_desc_strict {α : Type} (f : α → Nat) (l : List α)
    (h1 : l.Pairwise (fun a b => f b ≤ f a)) (h2 : (l.map f).Nodup) :
    l.Pairwise (fun a b => f b < f a) := by
  induction l with
  | nil => exact List.Pairwise.nil
  | cons a l ih =>
    obtain ⟨ha, h1'⟩ := List.pairwise_cons.mp h1
    rw [List.map_cons, List.nodup_cons] at h2
    obtain ⟨hfa, h2'⟩ := h2
    refine List.pairwise_cons.mpr ⟨?_, ih h1' h2'⟩
    intro b hb
    have hle := ha b hb
    have hne : f b ≠ f a := fun he => hfa (he ▸ List.mem_map_of_mem f hb)
    omega

theorem filter_id_length_le_one (progs : List ProgramRow)
    (hnd : (progs.map (fun p => p.id)).Nodup) (pid : Int) :
    (progs.filter (fun pr => pr.id == pid)).length ≤ 1 := by
  induction progs with
  | nil => simp
  | cons q qs ih =>
    rw [List.map_cons, List.nodup_cons] at hnd
    obtain ⟨hq, hqs⟩ := hnd
    rw [List.filter_cons]
    by_cases h : (q.id == pid) = true
    · rw [if_pos h]
      have hq' : q.id = pid := by simpa using h
      have hempty : qs.filter (fun pr => pr.id == pid) = [] := by
        rw [List.filter_eq_nil]
        intro x hx hpx
        have : x.id = pid := by simpa using hpx
        exact hq (by
          rw [hq', ← this]
          exact List.mem_map_of_mem _ hx)
      simp [hempty]
    · rw [if_neg h]
      exact ih hqs

/-- With duplicate-free program ids, every plan contributes at most one
joined row, so the joined rows project back to a sublist of the plans. -/
theorem bind_map_fst_sublist (plans : List PlanRow) (progs : List ProgramRow)
    (hnd : (progs.map (fun p => p.id)).Nodup) :
    ((plans.flatMap (fun p => (progs.filter (fun pr => pr.id == p.program_id)).map
      (fun pr => (p, pr)))).map Prod.fst).Sublist plans := by
  induction plans with
  | nil => simp
  | cons p ps ih =>
    rw [List.flatMap_cons, List.map_append]
    have hk := filter_id_length_le_one progs hnd p.program_id
    cases hf : progs.filter (fun pr => pr.id == p.program_id) with
    | nil => simpa using ih.cons p
    | cons q qs =>
      have hqs : qs = [] := by
        rw [hf] at hk
        simpa using hk
      subst hqs
      simpa using ih.cons₂ p

/-! ## Claim theorems -/

/-- C4: on every state of the programs table, GET /schools succeeds with
the school names strictly ascending (hence deduplicated and sorted), with
`count` the list's length, the listed names being exactly the school
names occurring among the programs however often they repeat; repeating
the call on the unchanged store returns an equal response. -/
theorem C4_schools_sorted_distinct (db : DB) :
    ∃ r : SchoolsResponse,
      get_all_schools noFail db = (.ok r, ConnState.released) ∧
      r.schools.Pairwise (· < ·) ∧
      r.schools.Nodup ∧
      r.count = r.schools.length ∧
      (∀ s, s ∈ r.schools ↔ ∃ p ∈ db.programs, p.school_name = s) ∧
      get_all_schools noFail db = get_all_schools noFail db := by
  have hmem : ∀ s, s ∈ distinctSorted (db.programs.map (fun p : ProgramRow => p.school_name)) ↔
      ∃ p ∈ db.programs, p.school_name = s := by
    intro s
    rw [mem_distinctSorted, List.mem_map]
  have hok : get_all_schools noFail db =
      (Except.ok (⟨distinctSorted (db.programs.map (fun p : ProgramRow => p.school_name)),
        (distinctSorted (db.programs.map (fun p : ProgramRow => p.school_name))).length⟩ :
          SchoolsResponse),
       ConnState.released) := rfl
  exact ⟨_, hok, distinctSorted_chain _, distinctSorted_nodup _, rfl, hmem, rfl⟩

/-- C5: GET /programs/program_id/courses returns 404 and no course list
when the program id is absent; when it resolves, the response carries
the resolved program's name and school and exactly the courses of that
program, ordered by course code. -/
theorem C5_courses_for_program (db : DB) (program_id : Int) :
    ((∀ p ∈ db.programs, p.id ≠ program_id) →
      get_courses_for_program noFail db program_id =
        (.error ⟨404, "Program with id " ++ toString program_id ++ " not found"⟩,
         ConnState.released)) ∧
    (∀ pr, db.programs.find? (fun p => p.id == program_id) = some pr →
      ∃ r : CoursesResponse,
        get_courses_for_program noFail db program_id = (.ok r, ConnState.released) ∧
        r.program_id = program_id ∧
        r.program_name = pr.program_name ∧
        r.school_name = pr.school_name ∧
        r.courses.Perm (db.courses.filter (fun c => c.program_id == program_id)) ∧
        r.courses.Pairwise (fun a b => a.code ≤ b.code) ∧
        r.total_courses = r.courses.length) := by
  constructor
  · intro h
    have hf : db.programs.find? (fun p => p.id == program_id) = none :=
      List.find?_eq_none.mpr (fun p hp => by simp [h p hp])
    simp [get_courses_for_program, noFail, hf]
  · intro pr hf
    refine ⟨⟨program_id, pr.program_name, pr.school_name,
      sortBy (fun a b => decide (a.code ≤ b.code))
        (db.courses.filter (fun c => c.program_id == program_id)),
      (sortBy (fun a b => decide (a.code ≤ b.code))
        (db.courses.filter (fun c => c.program_id == program_id))).length⟩,
      by simp [get_courses_for_program, noFail, hf], rfl, rfl, rfl,
      sortBy_perm _ _, ?_, rfl⟩
    have hpw := @sortBy_pairwise CourseRow (fun a b => decide (a.code ≤ b.code))
      (fun a b => by
        rcases le_total a.code b.code with h | h
        · left
          simpa using h
        · right
          simpa using h)
      (fun a b c h1 h2 => by
        simp only [decide_eq_true_eq] at h1 h2 ⊢
        exact le_trans h1 h2)
      (db.courses.filter (fun c => c.program_id == program_id))
    exact hpw.imp (fun h => by simpa using h)

/-- C2: POST /users fails with 400 and writes no row when the email is
taken; otherwise it succeeds, writing one row and echoing the submitted
email and name with the newly assigned id. -/
theorem C2_create_user (db : DB) (body : CreateUser) :
    ((∃ u ∈ db.users, u.email = body.email) →
      create_new_user noFail db body =
        (.error ⟨400, "Email already exists"⟩, db, ConnState.released)) ∧
    ((∀ u ∈ db.users, u.email ≠ body.email) →
      create_new_user noFail db body =
        (.ok ⟨"User created successfully", ⟨db.next_user_id, body.email, body.name⟩⟩,
         { db with users := db.users ++ [⟨db.next_user_id, body.email, body.name⟩],
                   next_user_id := db.next_user_id + 1 },
         ConnState.released)) := by
  constructor
  · rintro ⟨u, hu, he⟩
    have hany : db.users.any (fun u => u.email == body.email) = true :=
      List.any_eq_true.mpr ⟨u, hu, by simp [he]⟩
    simp [create_new_user, noFail, hany]
  · intro h
    have hany : db.users.any (fun u => u.email == body.email) = false := by
      rw [List.any_eq_false]
      intro u hu
      simp [h u hu]
    simp [create_new_user, noFail, hany]

/-- C9: the save-plan existence checks test Python truthiness, so an id
that is present but equal to 0 is treated as absent: with a user row of
id 0 stored, saving for user 0 still fails with 404 "User not found",
and with a program row of id 0 stored, program id 0 still fails with
404 "Program not found". -/
theorem C9_truthiness_zero_id (db : DB) (user_id : Int) (body : CreatePlan) :
    ((∃ u ∈ db.users, u.id = 0) → user_id = 0 →
      save_degree_plan noFail db user_id body =
        (.error ⟨404, "User not found"⟩, db, ConnState.released)) ∧
    (pyTruthy (fetchUserId db user_id) = true →
      (∃ p ∈ db.programs, p.id = 0) → body.program_id = 0 →
      save_degree_plan noFail db user_id body =
        (.error ⟨404, "Program not found"⟩, db, ConnState.released)) := by
  constructor
  · rintro ⟨u, hu, hu0⟩ rfl
    have hft : pyTruthy (fetchUserId db 0) = false := by
      cases hf : db.users.find? (fun v => v.id == (0 : Int)) with
      | none =>
        rw [fetchUserId, hf]
        rfl
      | some v =>
        have hv := List.find?_some hf
        rw [fetchUserId, hf]
        simp [pyTruthy]
        simpa using hv
    simp [save_degree_plan, noFail, hft]
  · rintro htruthy ⟨p, hp, hp0⟩ hpid0
    have hprog : pyTruthy (fetchProgramId db body.program_id) = false := by
      rw [hpid0]
      cases hf : db.programs.find? (fun q => q.id == (0 : Int)) with
      | none =>
        rw [fetchProgramId, hf]
        rfl
      | some q =>
        have hq := List.find?_some hf
        rw [fetchProgramId, hf]
        simp [pyTruthy]
        simpa using hq
    simp [save_degree_plan, noFail, htruthy, hprog]

/-- C10: GET /users/user_id/plans performs no existence check on the
user: on a store whose plans all reference stored users, any user id
absent from the users table yields a success with an empty list and
count 0, not a 404. -/
theorem C10_no_user_existence_check (db : DB) (user_id : Int)
    (href : ∀ p ∈ db.plans, ∃ u ∈ db.users, u.id = p.user_id)
    (habs : ∀ u ∈ db.users, u.id ≠ user_id) :
    get_user_plans noFail db user_id = (.ok ⟨user_id, [], 0⟩, ConnState.released) := by
  have hfilter : db.plans.filter (fun p => p.user_id == user_id) = [] := by
    rw [List.filter_eq_nil]
    intro p hp hpu
    obtain ⟨u, hu, hui⟩ := href p hp
    have hpe : p.user_id = user_id := by simpa using hpu
    exact habs u hu (by rw [hui, hpe])
  simp [get_user_plans, noFail, planRows, planJoin, hfilter, sortBy, enrichRows]

/-- C1: saving a plan 404s without writing when the user id is absent
(regardless of the program), 404s without writing when the user exists
but the program id is absent, and otherwise inserts one row and returns
the new plan's id and creation timestamp — on stores whose serial ids
are positive, as PostgreSQL assigns them. -/
theorem C1_save_plan_checks (db : DB) (user_id : Int) (body : CreatePlan)
    (hup : ∀ u ∈ db.users, 0 < u.id) (hpp : ∀ p ∈ db.programs, 0 < p.id) :
    ((∀ u ∈ db.users, u.id ≠ user_id) →
      save_degree_plan noFail db user_id body =
        (.error ⟨404, "User not found"⟩, db, ConnState.released)) ∧
    ((∃ u ∈ db.users, u.id = user_id) → (∀ p ∈ db.programs, p.id ≠ body.program_id) →
      save_degree_plan noFail db user_id body =
        (.error ⟨404, "Program not found"⟩, db, ConnState.released)) ∧
    ((∃ u ∈ db.users, u.id = user_id) → (∃ p ∈ db.programs, p.id = body.program_id) →
      save_degree_plan noFail db user_id body =
        (.ok ⟨"Plan saved successfully", db.next_plan_id, db.now⟩,
         { db with plans := db.plans ++ [⟨db.next_plan_id, user_id, body.program_id,
             dumpsStr body.plan_data, db.now⟩],
                   next_plan_id := db.next_plan_id + 1,
                   now := db.now + 1 },
         ConnState.released)) := by
  refine ⟨?_, ?_, ?_⟩
  · intro h
    have h1 : pyTruthy (fetchUserId db user_id) = false := by
      rw [fetchUserId_none h]
      rfl
    simp [save_degree_plan, noFail, h1]
  · intro hu hp
    have h1 := fetchUserId_truthy hup hu
    have h2 : pyTruthy (fetchProgramId db body.program_id) = false := by
      rw [fetchProgramId_none hp]
      rfl
    simp [save_degree_plan, noFail, h1, h2]
  · intro hu hp
    have h1 := fetchUserId_truthy hup hu
    have h2 := fetchProgramId_truthy hpp hp
    simp [save_degree_plan, noFail, h1, h2]

/-- An infrastructure oracle failing only round trip `k`. -/
def failAt (k : Nat) : Nat → Option String :=
  fun n => if n = k then some "connection is closed" else none

/-- A store with the four schema tables and no rows. -/
def emptyDB : DB := ⟨[], [], [], [], 1, 1, 0, ["courses", "plans", "programs", "users"]⟩

/-- Connection parameters for the probe. -/
def probeCfg : DbConfig := ⟨"localhost", "5432", "degreepath", "admin", "secret"⟩

/-- C7 counterexample: the database probe acquires a connection and, when
its first query fails, returns its diagnostic payload with that
connection still open — it has no guaranteed-execution block, so the
claim that every endpoint releases the connection on every exit path is
false. -/
theorem C7_counterexample :
    (test_database (failAt 1) probeCfg emptyDB).2 = ConnState.acquired ∧
    ConnState.acquired ≠ ConnState.released := by
  exact ⟨rfl, by decide⟩

/-- C7 amended: every endpoint except the database probe releases its
connection on every exit path (success, business error, or injected
infrastructure failure after acquisition), and the probe releases it on
its success path; but a probe query failing after acquisition leaves the
connection open. -/
theorem C7_amended_connection_release :
    (∀ fail db, (get_all_schools fail db).2 ≠ ConnState.acquired) ∧
    (∀ fail db s, (get_programs_for_school fail db s).2 ≠ ConnState.acquired) ∧
    (∀ fail db b, (create_new_user fail db b).2.2 ≠ ConnState.acquired) ∧
    (∀ fail db uid b, (save_degree_plan fail db uid b).2.2 ≠ ConnState.acquired) ∧
    (∀ fail db uid, (get_user_plans fail db uid).2 ≠ ConnState.acquired) ∧
    (∀ fail db pid, (get_courses_for_program fail db pid).2 ≠ ConnState.acquired) ∧
    (∀ fail db, (get_all_users fail db).2 ≠ ConnState.acquired) ∧
    (∀ fail db uid, (get_user fail db uid).2 ≠ ConnState.acquired) ∧
    (∀ cfg db, (test_database noFail cfg db).2 = ConnState.released) := by
  refine ⟨?_, ?_, ?_, ?_, ?_, ?_, ?_, ?_, ?_⟩
  · intro fail db
    unfold get_all_schools
    (repeat' split) <;> simp
  · intro fail db s
    unfold get_programs_for_school
    (repeat' split) <;> simp
  · intro fail db b
    unfold create_new_user
    (repeat' split) <;> simp
  · intro fail db uid b
    unfold save_degree_plan
    (repeat' split) <;> simp
  · intro fail db uid
    rcases h0 : fail 0 with _ | e0
    · rcases h1 : fail 1 with _ | e1
      · simp only [get_user_plans, h0, h1]
        split <;> simp
      · simp [get_user_plans, h0, h1]
    · simp [get_user_plans, h0]
  · intro fail db pid
    unfold get_courses_for_program
    (repeat' split) <;> simp
  · intro fail db
    unfold get_all_users
    (repeat' split) <;> simp
  · intro fail db uid
    unfold get_user
    (repeat' split) <;> simp
  · intro cfg db
    simp only [test_database, noFail]
    split <;> rfl

/-- C8: the database probe never propagates an exception: for every
failure pattern it returns a normal structured payload; a failure
payload embeds the error message and the connection parameters used,
with the password appearing only as the mask, never by value. -/
theorem C8_probe_structured (fail : Nat → Option String) (cfg : DbConfig) (db : DB) :
    (∃ p : TestDbSuccess, (test_database fail cfg db).1 = .ok p ∧ p.status = "success") ∨
    (∃ e : String, (test_database fail cfg db).1 = .diag (failurePayload cfg e) ∧
      (failurePayload cfg e).status = "error" ∧
      (failurePayload cfg e).message = "Database error: " ++ e ∧
      (failurePayload cfg e).database_url_format =
        "postgresql://" ++ cfg.user ++ ":***@" ++ cfg.host ++ ":" ++ cfg.port ++ "/" ++
          cfg.name ∧
      (failurePayload cfg e).connection_details = ⟨cfg.host, cfg.port, cfg.name, cfg.user⟩) := by
  rcases h0 : fail 0 with _ | e0
  · rcases h1 : fail 1 with _ | e1
    · rcases h2 : fail 2 with _ | e2
      · by_cases hmem :
          ((sortBy (fun a b => decide (a ≤ b)) db.tables).contains "programs") = true
        · rcases h3 : fail 3 with _ | e3
          · left
            refine ⟨⟨"success", "Database connection working!", cfg.name,
              sortBy (fun a b => decide (a ≤ b)) db.tables, some db.programs.length⟩, ?_, rfl⟩
            simp only [test_database, h0, h1, h2]
            rw [if_pos hmem, h3]
          · right
            refine ⟨e3, ?_, rfl, rfl, rfl, rfl⟩
            simp only [test_database, h0, h1, h2]
            rw [if_pos hmem, h3]
        · left
          refine ⟨⟨"success", "Database connection working!", cfg.name,
            sortBy (fun a b => decide (a ≤ b)) db.tables, none⟩, ?_, rfl⟩
          simp only [test_database, h0, h1, h2]
          rw [if_neg hmem]
      · right
        exact ⟨e2, by simp [test_database, h0, h1, h2], rfl, rfl, rfl, rfl⟩
    · right
      exact ⟨e1, by simp [test_database, h0, h1], rfl, rfl, rfl, rfl⟩
  · right
    exact ⟨e0, by simp [test_database, h0], rfl, rfl, rfl, rfl⟩

/-- Success shape of the plans listing: when every stored payload is in
serialized form the loop succeeds, and the returned records correspond
pointwise to the sorted joined rows. -/
theorem get_user_plans_ok (db : DB) (user_id : Int)
    (hstored : ∀ p ∈ db.plans, ∃ j, p.plan_data = dumpsStr j) :
    ∃ es, get_user_plans noFail db user_id =
        (.ok ⟨user_id, es, es.length⟩, ConnState.released) ∧
      List.Forall₂ EnrichedOf (planRows db user_id) es := by
  have hall : ∀ r ∈ planRows db user_id, ∃ j, r.1.plan_data = dumpsStr j := by
    intro r hr
    have hj : r ∈ planJoin db user_id := mem_sortBy.mp hr
    obtain ⟨p, hp, hrp⟩ := List.mem_flatMap.mp hj
    obtain ⟨pr, hpr, rfl⟩ := List.mem_map.mp hrp
    exact hstored p (List.mem_of_mem_filter hp)
  obtain ⟨es, hes, hf2⟩ := enrichRows_total _ hall
  refine ⟨es, ?_, hf2⟩
  simp only [get_user_plans, noFail, hes]

/-- C3: saving a plan and then fetching that user's plans returns the
submitted payload deep-equal to what was submitted: the stored textual
form deserializes back to the document that was serialized at save time. -/
theorem C3_payload_roundtrip (db : DB) (user_id : Int) (body : CreatePlan)
    (hup : ∀ u ∈ db.users, 0 < u.id) (hpp : ∀ p ∈ db.programs, 0 < p.id)
    (hstored : ∀ p ∈ db.plans, ∃ j, p.plan_data = dumpsStr j)
    (huser : ∃ u ∈ db.users, u.id = user_id)
    (hprog : ∃ p ∈ db.programs, p.id = body.program_id) :
    ∃ r : UserPlansResponse,
      (get_user_plans noFail (save_degree_plan noFail db user_id body).2.1 user_id).1 =
        .ok r ∧
      ∃ e ∈ r.plans, e.id = db.next_plan_id ∧ e.plan_data = body.plan_data := by
  have h1 := fetchUserId_truthy hup huser
  have h2 := fetchProgramId_truthy hpp hprog
  have hsave : (save_degree_plan noFail db user_id body).2.1 =
      { db with
          plans := db.plans ++
            [⟨db.next_plan_id, user_id, body.program_id, dumpsStr body.plan_data, db.now⟩],
          next_plan_id := db.next_plan_id + 1,
          now := db.now + 1 } := by
    simp [save_degree_plan, noFail, h1, h2]
  rw [hsave]
  have hstored' : ∀ p ∈ db.plans ++ [(⟨db.next_plan_id, user_id, body.program_id,
      dumpsStr body.plan_data, db.now⟩ : PlanRow)], ∃ j, p.plan_data = dumpsStr j := by
    intro p hp
    rcases List.mem_append.mp hp with hp | hp
    · exact hstored p hp
    · rw [List.mem_singleton] at hp
      subst hp
      exact ⟨body.plan_data, rfl⟩
  obtain ⟨es, hgp, hf2⟩ := get_user_plans_ok
    { db with
        plans := db.plans ++
          [⟨db.next_plan_id, user_id, body.program_id, dumpsStr body.plan_data, db.now⟩],
        next_plan_id := db.next_plan_id + 1,
        now := db.now + 1 } user_id hstored'
  obtain ⟨pr, hpr, hpid⟩ := hprog
  have hrowmem : (⟨db.next_plan_id, user_id, body.program_id,
      dumpsStr body.plan_data, db.now⟩ : PlanRow) ∈
      (db.plans ++ [(⟨db.next_plan_id, user_id, body.program_id,
        dumpsStr body.plan_data, db.now⟩ : PlanRow)]).filter
        (fun p => p.user_id == user_id) := by
    rw [List.mem_filter]
    exact ⟨List.mem_append_right _ (List.mem_singleton.mpr rfl), by simp⟩
  have hpair : ((⟨db.next_plan_id, user_id, body.program_id,
      dumpsStr body.plan_data, db.now⟩ : PlanRow), pr) ∈
      planJoin
        { db with
            plans := db.plans ++
              [⟨db.next_plan_id, user_id, body.program_id, dumpsStr body.plan_data, db.now⟩],
            next_plan_id := db.next_plan_id + 1,
            now := db.now + 1 } user_id := by
    refine List.mem_flatMap.mpr ⟨_, hrowmem, List.mem_map.mpr ⟨pr, ?_, rfl⟩⟩
    rw [List.mem_filter]
    exact ⟨hpr, by simp [hpid]⟩
  have hrows := mem_planRows.mpr hpair
  obtain ⟨e, he, hEO⟩ := forall2_mem_left hf2 hrows
  refine ⟨⟨user_id, es, es.length⟩, by rw [hgp], e, he, hEO.1, ?_⟩
  have hpd := hEO.2.2.2.1
  exact Option.some.inj (hpd.trans (loadsStr_dumpsStr body.plan_data))

/-- C6: listing a user's plans succeeds on a well-formed store, ordered
strictly by creation time descending, counting its own length, each row
enriched with the matching program's school name, program name and
degree type; it lists exactly the user's plans. -/
theorem C6_user_plans_newest_first (db : DB) (user_id : Int)
    (hstored : ∀ p ∈ db.plans, ∃ j, p.plan_data = dumpsStr j)
    (hprogs : ∀ p ∈ db.plans, ∃ pr ∈ db.programs, pr.id = p.program_id)
    (hprognd : (db.programs.map (fun p => p.id)).Nodup)
    (hcreated : (db.plans.map (fun p => p.created_at)).Nodup) :
    ∃ r : UserPlansResponse,
      get_user_plans noFail db user_id = (.ok r, ConnState.released) ∧
      r.user_id = user_id ∧
      r.count = r.plans.length ∧
      r.plans.Pairwise (fun a b => b.created_at < a.created_at) ∧
      (∀ p ∈ db.plans, p.user_id = user_id →
        ∃ e ∈ r.plans, e.id = p.id ∧ e.created_at = p.created_at ∧
          some e.plan_data = loadsStr p.plan_data ∧
          ∃ pr ∈ db.programs, pr.id = p.program_id ∧
            e.school_name = pr.school_name ∧ e.program_name = pr.program_name ∧
            e.degree_type = pr.degree_type) ∧
      (∀ e ∈ r.plans, ∃ p ∈ db.plans, p.user_id = user_id ∧ e.id = p.id ∧
        e.created_at = p.created_at) := by
  obtain ⟨es, hgp, hf2⟩ := get_user_plans_ok db user_id hstored
  have hpw := @sortBy_pairwise (PlanRow × ProgramRow)
    (fun a b => decide (b.1.created_at ≤ a.1.created_at))
    (fun a b => by
      rcases le_total b.1.created_at a.1.created_at with h | h
      · left
        simpa using h
      · right
        simpa using h)
    (fun a b c hab hbc => by
      simp only [decide_eq_true_eq] at hab hbc ⊢
      omega)
    (planJoin db user_id)
  have hpw_le : (planRows db user_id).Pairwise
      (fun a b => b.1.created_at ≤ a.1.created_at) :=
    hpw.imp (fun h => by simpa using h)
  have hsub := bind_map_fst_sublist (db.plans.filter (fun p => p.user_id == user_id))
    db.programs hprognd
  have hndjoin : ((planJoin db user_id).map (fun r => r.1.created_at)).Nodup := by
    have hmapeq : (planJoin db user_id).map (fun r => r.1.created_at) =
        ((planJoin db user_id).map Prod.fst).map (fun p : PlanRow => p.created_at) := by
      rw [List.map_map]
      rfl
    rw [hmapeq]
    have hsub2 : (((planJoin db user_id).map Prod.fst).map
        (fun p : PlanRow => p.created_at)).Sublist
        (db.plans.map (fun p : PlanRow => p.created_at)) :=
      (hsub.map (fun p : PlanRow => p.created_at)).trans
        ((List.filter_sublist _).map (fun p : PlanRow => p.created_at))
    exact hcreated.sublist hsub2
  have hndrows : ((planRows db user_id).map (fun r => r.1.created_at)).Nodup := by
    have hperm := (sortBy_perm (fun (a b : PlanRow × ProgramRow) =>
      decide (b.1.created_at ≤ a.1.created_at)) (planJoin db user_id)).map
      (fun r => r.1.created_at)
    exact hperm.nodup_iff.mpr hndjoin
  have hstrict := pairwise_desc_strict (fun r => r.1.created_at) (planRows db user_id)
    hpw_le hndrows
  have hpes : es.Pairwise (fun a b => b.created_at < a.created_at) :=
    forall2_pairwise (fun a a' b b' hab hab' hS => by
      obtain ⟨_, _, _, _, hca, _, _, _⟩ := hab
      obtain ⟨_, _, _, _, hca', _, _, _⟩ := hab'
      rw [hca, hca']
      exact hS) hf2 hstrict
  refine ⟨⟨user_id, es, es.length⟩, hgp, rfl, rfl, hpes, ?_, ?_⟩
  · intro p hp hpu
    obtain ⟨pr, hpr, hprid⟩ := hprogs p hp
    have hpmem : p ∈ db.plans.filter (fun q => q.user_id == user_id) := by
      rw [List.mem_filter]
      exact ⟨hp, by simp [hpu]⟩
    have hpair : (p, pr) ∈ planJoin db user_id := by
      refine List.mem_flatMap.mpr ⟨p, hpmem, List.mem_map.mpr ⟨pr, ?_, rfl⟩⟩
      rw [List.mem_filter]
      exact ⟨hpr, by simp [hprid]⟩
    obtain ⟨e, he, hEO⟩ := forall2_mem_left hf2 (mem_planRows.mpr hpair)
    exact ⟨e, he, hEO.1, hEO.2.2.2.2.1, hEO.2.2.2.1,
      pr, hpr, hprid, hEO.2.2.2.2.2.1, hEO.2.2.2.2.2.2.1, hEO.2.2.2.2.2.2.2⟩
  · intro e he
    obtain ⟨r, hr, hEO⟩ := forall2_mem_right hf2 he
    have hj : r ∈ planJoin db user_id := mem_sortBy.mp hr
    obtain ⟨p, hp, hrp⟩ := List.mem_flatMap.mp hj
    obtain ⟨pr, hpr, rfl⟩ := List.mem_map.mp hrp
    refine ⟨p, List.mem_of_mem_filter hp, ?_, hEO.1, hEO.2.2.2.2.1⟩
    have := List.of_mem_filter hp
    simpa using this

/-! ## Concrete store for the witnesses -/

def wUser : UserRow := ⟨1, "a@x.com", "A"⟩

def wProgram : ProgramRow := ⟨7, "State U", "CS", "BS"⟩

def wPlan : PlanRow := ⟨1, 1, 7, dumpsStr (Json.num 3), 5⟩

def wDB : DB := ⟨[wUser], [wProgram], [], [wPlan], 2, 2, 6, ["programs"]⟩

/-- C1 witness: on the concrete store, saving a plan for the stored user
and program succeeds and appends exactly one row. -/
theorem C1_save_plan_checks_witness :
    save_degree_plan noFail wDB 1 ⟨7, Json.null⟩ =
      (.ok ⟨"Plan saved successfully", wDB.next_plan_id, wDB.now⟩,
       { wDB with
           plans := wDB.plans ++ [⟨wDB.next_plan_id, 1, 7, dumpsStr Json.null, wDB.now⟩],
           next_plan_id := wDB.next_plan_id + 1,
           now := wDB.now + 1 },
       ConnState.released) :=
  (C1_save_plan_checks wDB 1 ⟨7, Json.null⟩ (by decide) (by decide)).2.2
    (by decide) (by decide)

/-- C3 witness: on the concrete store, the saved payload comes back
deep-equal from the fetch. -/
theorem C3_payload_roundtrip_witness :
    ∃ r : UserPlansResponse,
      (get_user_plans noFail (save_degree_plan noFail wDB 1 ⟨7, Json.num 42⟩).2.1 1).1 =
        .ok r ∧
      ∃ e ∈ r.plans, e.id = wDB.next_plan_id ∧ e.plan_data = Json.num 42 :=
  C3_payload_roundtrip wDB 1 ⟨7, Json.num 42⟩ (by decide) (by decide)
    (by
      intro p hp
      rcases List.mem_singleton.mp hp with rfl
      exact ⟨Json.num 3, rfl⟩)
    (by decide) (by decide)

/-- C6 witness: the plans listing of the concrete store. -/
theorem C6_user_plans_newest_first_witness :
    ∃ r : UserPlansResponse,
      get_user_plans noFail wDB 1 = (.ok r, ConnState.released) ∧
      r.user_id = 1 ∧
      r.count = r.plans.length ∧
      r.plans.Pairwise (fun a b => b.created_at < a.created_at) ∧
      (∀ p ∈ wDB.plans, p.user_id = 1 →
        ∃ e ∈ r.plans, e.id = p.id ∧ e.created_at = p.created_at ∧
          some e.plan_data = loadsStr p.plan_data ∧
          ∃ pr ∈ wDB.programs, pr.id = p.program_id ∧
            e.school_name = pr.school_name ∧ e.program_name = pr.program_name ∧
            e.degree_type = pr.degree_type) ∧
      (∀ e ∈ r.plans, ∃ p ∈ wDB.plans, p.user_id = 1 ∧ e.id = p.id ∧
        e.created_at = p.created_at) :=
  C6_user_plans_newest_first wDB 1
    (by
      intro p hp
      rcases List.mem_singleton.mp hp with rfl
      exact ⟨Json.num 3, rfl⟩)
    (by decide) (by decide) (by decide)

/-- C10 witness: fetching plans of an id absent from the concrete store's
users succeeds with the empty list. -/
theorem C10_no_user_existence_check_witness :
    get_user_plans noFail wDB 99 = (.ok ⟨99, [], 0⟩, ConnState.released) :=
  C10_no_user_existence_check wDB 99 (by decide) (by decide)

end DegreePath
